import Mathlib

/-!
Verification of the kymatio 2D scattering-transform frontend.

We embed, as Lean definitions:
* the coefficient-path layouts (grouped stack order and the reference
  "interleaved" order) and the index-reordering helper
  `reorder_coefficients_from_interleaved` from
  `src/kymatio/scattering2d/tests/test_numpy_scattering2d.py`;
* the build-time validation and padding-amount computation of
  `ScatteringBase2D.build` from
  `src/kymatio/scattering2d/frontend/base_frontend.py`;
* the parts of the repository that the source tree does not contain
  (`compute_padding`, the filter bank configuration check, the backend pad /
  unpad operations, and the forward-call shape law), modelled from the spec.
-/

namespace Kymatio

open scoped List

/-- A scattering path: the label of one channel of the coefficient stack.
Order 0 is the plain smoothed coefficient; order 1 is indexed by a scale `j1`
and an orientation `l1`; order 2 by `(j1, l1, j2, l2)` with `j2 > j1`. -/
inductive Path where
  | order0 : Path
  | order1 (j1 l1 : Nat) : Path
  | order2 (j1 l1 j2 l2 : Nat) : Path
deriving DecidableEq, Repr

/-- Innermost loop of `reorder_coefficients_from_interleaved`
(`for l2 in range(L): n += 1; order2.append(n)`): starting from counter `n`,
run `k` iterations, each incrementing the counter and recording it.
Returns the final counter and the recorded indices. -/
def appendCount : Nat → Nat → Nat × List Nat
  | 0, n => (n, [])
  | k + 1, n =>
    let r := appendCount k (n + 1)
    (r.1, (n + 1) :: r.2)

/-- The `for j2 in range(j1 + 1, J)` loop of
`reorder_coefficients_from_interleaved`: for each scale in `j2s` it runs the
inner orientation loop of `L` iterations, threading the counter. -/
def loopJ2 (L : Nat) : List Nat → Nat → Nat × List Nat
  | [], n => (n, [])
  | _ :: j2s, n =>
    let a := appendCount L n
    let b := loopJ2 L j2s a.1
    (b.1, a.2 ++ b.2)

/-- The `for l1 in range(L)` loop of `reorder_coefficients_from_interleaved`:
each iteration increments the counter, records it as an order-1 index, then
runs the `j2` loop over the scales `j1 + 1, ..., J - 1`.  Returns the final
counter, the order-1 indices and the order-2 indices. -/
def loopL1 (J L j1 : Nat) : List Nat → Nat → Nat × List Nat × List Nat
  | [], n => (n, [], [])
  | _ :: l1s, n =>
    let a := loopJ2 L (List.range' (j1 + 1) (J - (j1 + 1))) (n + 1)
    let b := loopL1 J L j1 l1s a.1
    (b.1, (n + 1) :: b.2.1, a.2 ++ b.2.2)

/-- The outer `for j1 in range(J)` loop of
`reorder_coefficients_from_interleaved`. -/
def loopJ1 (J L : Nat) : List Nat → Nat → Nat × List Nat × List Nat
  | [], n => (n, [], [])
  | j1 :: j1s, n =>
    let a := loopL1 J L j1 (List.range L) n
    let b := loopJ1 J L j1s a.1
    (b.1, a.2.1 ++ b.2.1, a.2.2 ++ b.2.2)

/-- Embedding of `TestScattering2DNumpy.reorder_coefficients_from_interleaved`
(`src/kymatio/scattering2d/tests/test_numpy_scattering2d.py`): walk the
interleaved channel layout with a running counter `n` starting at `0`, with
`order0 = [0]`, and collect the interleaved positions of the order-1 and
order-2 channels. -/
def reorder_coefficients_from_interleaved (J L : Nat) :
    List Nat × List Nat × List Nat :=
  ([0], (loopJ1 J L (List.range J) 0).2)

/-- The order-2 children of one `(j1, l1)` block in the interleaved layout:
for each `j2` in `j2s`, the `L` orientations `l2 = 0, ..., L - 1`. -/
def interJ2 (L j1 l1 : Nat) (j2s : List Nat) : List Path :=
  j2s.flatMap fun j2 => (List.range L).map fun l2 => Path.order2 j1 l1 j2 l2

/-- One scale `j1` of the interleaved layout: for each orientation `l1`, the
order-1 channel immediately followed by its order-2 children
(`j2 = j1 + 1, ..., J - 1`, each with `L` orientations). -/
def interL1 (J L j1 : Nat) (l1s : List Nat) : List Path :=
  l1s.flatMap fun l1 =>
    Path.order1 j1 l1 :: interJ2 L j1 l1 (List.range' (j1 + 1) (J - (j1 + 1)))

/-- All scales of the interleaved layout. -/
def interJ1 (J L : Nat) (j1s : List Nat) : List Path :=
  j1s.flatMap fun j1 => interL1 J L j1 (List.range L)

/-- The reference "interleaved" coefficient layout (the layout of the saved
test data in `test_Scattering2D`): order 0 first, then for each `(j1, l1)` in
increasing order the order-1 channel immediately followed by its order-2
children. -/
def interleaved (J L : Nat) : List Path :=
  Path.order0 :: interJ1 J L (List.range J)

/-- The order-1 section of the grouped stack: all order-1 channels by
increasing `j1`, then `l1` (spec §3, Scattering Coefficient Stack). -/
def order1Paths (J L : Nat) : List Path :=
  (List.range J).flatMap fun j1 =>
    (List.range L).map fun l1 => Path.order1 j1 l1

/-- The order-2 channels with first scale `j1` and first orientations drawn
from `l1s`, ordered by `l1`, then increasing `j2 > j1`, then `l2`. -/
def blockO2 (J L j1 : Nat) (l1s : List Nat) : List Path :=
  l1s.flatMap fun l1 =>
    interJ2 L j1 l1 (List.range' (j1 + 1) (J - (j1 + 1)))

/-- The order-2 section of the grouped stack: all order-2 channels by
increasing `j1`, then `l1`, then increasing `j2 > j1`, then `l2` (spec §3). -/
def order2Paths (J L : Nat) : List Path :=
  (List.range J).flatMap fun j1 => blockO2 J L j1 (List.range L)

/-- The grouped coefficient-stack layout (the hard external ordering
contract of spec §3): order 0, then all order-1 channels, then all order-2
channels. -/
def grouped (J L : Nat) : List Path :=
  Path.order0 :: (order1Paths J L ++ order2Paths J L)

/-- Modelled from the spec: the list of paths of the scattering cascade's
output stack (the cascade itself, `scattering2d`, is not in the source tree).
Spec §4.3: order 0 always, all order-1 channels, and the order-2 channels
exactly when `max_order = 2`. -/
def scatteringPaths (J L maxOrder : Nat) : List Path :=
  Path.order0 ::
    (order1Paths J L ++ if maxOrder = 2 then order2Paths J L else [])

/-- `SubAt zs ps i` says that the list `ps` occupies positions
`i, i + 1, ..., i + ps.length - 1` of the list `zs`. -/
def SubAt (zs ps : List Path) (i : Nat) : Prop :=
  ∀ j, j < ps.length → zs.getD (i + j) Path.order0 = ps.getD j Path.order0

/-- Whether a fallible computation succeeded. -/
def isOk {ε α : Type} : Except ε α → Bool
  | Except.ok _ => true
  | Except.error _ => false

/-- Modelled from the spec: `compute_padding`
(`src/kymatio/scattering2d/utils.py` is not in the source tree).  Spec §4.1:
each padded dimension is the input dimension plus at least one extra unit of
margin, rounded up to the nearest value divisible by `2^J`. -/
def compute_padding (M N J : Nat) : Nat × Nat :=
  ((M + 1 + (2 ^ J - 1)) / 2 ^ J * 2 ^ J,
   (N + 1 + (2 ^ J - 1)) / 2 ^ J * 2 ^ J)

/-- Embedding of the validation performed by `ScatteringBase2D.build`
(`src/kymatio/scattering2d/frontend/base_frontend.py`): raise a
`RuntimeError` when `2 ** J > M or 2 ** J > N`, otherwise compute the padded
dimensions. -/
def ScatteringBase2D_build (M N J : Nat) : Except String (Nat × Nat) :=
  if 2 ^ J > M ∨ 2 ^ J > N then
    Except.error "The smallest dimension should be larger than 2^J."
  else
    Except.ok (compute_padding M N J)

/-- Embedding of the pad-amount computation of `ScatteringBase2D.build`:
for one axis of original size `orig` padded to `padded`, the pad placed
before is `(padded - orig) // 2` and the pad placed after is
`(padded - orig + 1) // 2`. -/
def pad_amounts (orig padded : Nat) : Nat × Nat :=
  ((padded - orig) / 2, (padded - orig + 1) / 2)

/-- Modelled from the spec: the shape behaviour of the forward call (the
frontend `scattering` methods are not in the source tree).  Spec §6: the
input must have at least two trailing spatial dimensions matching `(M, N)`;
the output keeps the leading batch dimensions, adds a channel axis of the
coefficient-stack length, and has trailing spatial dimensions
`(M // 2^J, N // 2^J)`. -/
def scatteringOutputShape (J L maxOrder M N : Nat) (inputShape : List Nat) :
    Except String (List Nat) :=
  if inputShape.length < 2 then
    Except.error "Input tensor must have at least two dimensions."
  else if inputShape.drop (inputShape.length - 2) ≠ [M, N] then
    Except.error "NumPy array must be of spatial size (M, N)."
  else
    Except.ok (inputShape.take (inputShape.length - 2) ++
      [(scatteringPaths J L maxOrder).length, M / 2 ^ J, N / 2 ^ J])

/-- Modelled from the spec: the eager input validation of the forward call
(the frontend `scattering` methods are not in the source tree).  Spec §4.3
and §7: an input of rank below two is rejected; with `pre_pad` unset the
spatial size must equal `(M, N)`; with `pre_pad` set it must equal
`(M_padded, N_padded)`, with a distinct message (messages as asserted by
`test_scattering2d_errors` in the source tree's tests). -/
def forwardValidate (M N Mp Np : Nat) (pre_pad : Bool)
    (inputShape : List Nat) : Except String Unit :=
  if inputShape.length < 2 then
    Except.error "Input tensor must have at least two dimensions."
  else if pre_pad then
    if inputShape.drop (inputShape.length - 2) ≠ [Mp, Np] then
      Except.error "Padded array must be of spatial size (M_padded, N_padded)."
    else Except.ok ()
  else
    if inputShape.drop (inputShape.length - 2) ≠ [M, N] then
      Except.error "NumPy array must be of spatial size (M, N)."
    else Except.ok ()

/-- Modelled from the spec: the configuration check of the filter bank
builder (`src/kymatio/scattering2d/filter_bank.py` is not in the source
tree).  Spec §4.2: invalid `(J, L)` combinations, e.g. `J ≤ 0` or `L ≤ 0`,
are propagated as a configuration error at build time. -/
def filter_bank_check (J L : Int) : Except String Unit :=
  if J ≤ 0 ∨ L ≤ 0 then
    Except.error "Invalid (J, L) configuration."
  else
    Except.ok ()

/-- Modelled from the spec: one axis of the backend `Pad` operation (backend
code is not in the source tree).  Spec §4.1: symmetric (reflect) padding,
placing `pb` reflected entries before the signal and `pa` after it. -/
def pad1d {α : Type} (pb pa : Nat) (xs : List α) : List α :=
  ((xs.drop 1).take pb).reverse ++ xs ++ (xs.reverse.drop 1).take pa

/-- Modelled from the spec: one axis of the backend `unpad` operation
(backend code is not in the source tree).  Spec §4.1: crop back to the
unpadded region, dropping the `pb` leading border entries and keeping the
`m` entries of the original extent. -/
def unpad1d {α : Type} (pb m : Nat) (ys : List α) : List α :=
  (ys.drop pb).take m

/-- Modelled from the spec: the two-axis backend `Pad` operation, padding
the columns of every row and then the list of rows. -/
def pad2d {α : Type} (pbM paM pbN paN : Nat) (x : List (List α)) :
    List (List α) :=
  pad1d pbM paM (x.map (pad1d pbN paN))

/-- Modelled from the spec: the two-axis backend `unpad` operation, cropping
the rows and then every row. -/
def unpad2d {α : Type} (pbM m pbN n : Nat) (ys : List (List α)) :
    List (List α) :=
  (unpad1d pbM m ys).map (unpad1d pbN n)

/-! ### Closed forms of the reordering loops -/

theorem appendCount_eq (k n : Nat) :
    appendCount k n = (n + k, List.range' (n + 1) k) := by
  induction k generalizing n with
  | zero => simp [appendCount]
  | succ k ih =>
      simp only [appendCount, ih, List.range'_succ]
      refine Prod.ext ?_ rfl
      omega

theorem loopJ2_eq (L : Nat) (j2s : List Nat) (n : Nat) :
    loopJ2 L j2s n =
      (n + j2s.length * L, List.range' (n + 1) (j2s.length * L)) := by
  induction j2s generalizing n with
  | nil => simp [loopJ2]
  | cons j2 j2s ih =>
      simp only [loopJ2, appendCount_eq, ih, List.length_cons, Nat.succ_mul]
      refine Prod.ext (by simp; omega) ?_
      simp only []
      rw [show n + L + 1 = n + 1 + L by omega, List.range'_append_1]

theorem interJ2_length (L j1 l1 : Nat) (j2s : List Nat) :
    (interJ2 L j1 l1 j2s).length = j2s.length * L := by
  induction j2s with
  | nil => simp [interJ2]
  | cons j2 j2s ih =>
      simp only [interJ2, List.flatMap_cons, List.length_append,
        List.length_map, List.length_range, List.length_cons] at *
      rw [Nat.succ_mul]
      omega

theorem interL1_length (J L j1 : Nat) (l1s : List Nat) :
    (interL1 J L j1 l1s).length =
      l1s.length * (1 + (J - (j1 + 1)) * L) := by
  induction l1s with
  | nil => simp [interL1]
  | cons l1 l1s ih =>
      simp only [interL1, List.flatMap_cons, List.length_append,
        List.length_cons, interJ2_length, List.length_range',
        List.length_cons] at *
      rw [Nat.succ_mul]
      omega

/-! ### Sublist-at-position machinery -/

theorem subAt_cons {zs : List Path} {x : Path} {xs : List Path} {i : Nat}
    (h : SubAt zs (x :: xs) i) :
    zs.getD i Path.order0 = x ∧ SubAt zs xs (i + 1) := by
  constructor
  · have h0 := h 0 (by simp)
    simpa using h0
  · intro j hj
    have h2 := h (j + 1) (by simp only [List.length_cons]; omega)
    rw [show i + (j + 1) = i + 1 + j by omega] at h2
    simpa using h2

theorem subAt_append {zs as bs : List Path} {i : Nat}
    (h : SubAt zs (as ++ bs) i) :
    SubAt zs as i ∧ SubAt zs bs (i + as.length) := by
  constructor
  · intro j hj
    have h2 := h j (by simp only [List.length_append]; omega)
    rwa [List.getD_eq_getElem?_getD (as ++ bs), List.getElem?_append_left hj,
      ← List.getD_eq_getElem?_getD] at h2
  · intro j hj
    have h2 := h (as.length + j) (by simp only [List.length_append]; omega)
    rw [show i + (as.length + j) = i + as.length + j by omega] at h2
    rwa [List.getD_eq_getElem?_getD (as ++ bs),
      List.getElem?_append_right (by omega),
      show as.length + j - as.length = j by omega,
      ← List.getD_eq_getElem?_getD] at h2

theorem map_getD_range' {zs : List Path} : ∀ (ps : List Path) (i : Nat),
    SubAt zs ps i →
    (List.range' i ps.length).map (fun k => zs.getD k Path.order0) = ps
  | [], _, _ => by simp
  | x :: xs, i, h => by
      obtain ⟨h1, h2⟩ := subAt_cons h
      simp only [List.length_cons, List.range'_succ, List.map_cons]
      rw [h1, map_getD_range' xs (i + 1) h2]

theorem interL1_cons (J L j1 x : Nat) (l1s : List Nat) :
    interL1 J L j1 (x :: l1s) =
      (Path.order1 j1 x ::
        interJ2 L j1 x (List.range' (j1 + 1) (J - (j1 + 1)))) ++
      interL1 J L j1 l1s := by
  simp [interL1]

theorem blockO2_cons (J L j1 x : Nat) (l1s : List Nat) :
    blockO2 J L j1 (x :: l1s) =
      interJ2 L j1 x (List.range' (j1 + 1) (J - (j1 + 1))) ++
      blockO2 J L j1 l1s := by
  simp [blockO2]

theorem interJ1_cons (J L x : Nat) (j1s : List Nat) :
    interJ1 J L (x :: j1s) =
      interL1 J L x (List.range L) ++ interJ1 J L j1s := by
  simp [interJ1]

theorem loopL1_cons (J L j1 x : Nat) (l1s : List Nat) (n : Nat) :
    loopL1 J L j1 (x :: l1s) n =
      ((loopL1 J L j1 l1s (n + 1 + (J - (j1 + 1)) * L)).1,
       (n + 1) :: (loopL1 J L j1 l1s (n + 1 + (J - (j1 + 1)) * L)).2.1,
       List.range' (n + 1 + 1) ((J - (j1 + 1)) * L) ++
         (loopL1 J L j1 l1s (n + 1 + (J - (j1 + 1)) * L)).2.2) := by
  simp [loopL1, loopJ2_eq]

theorem perm_append_swap (a b c d : List Nat) :
    ((a ++ b) ++ (c ++ d)).Perm ((a ++ c) ++ (b ++ d)) := by
  calc (a ++ b) ++ (c ++ d) = a ++ ((b ++ c) ++ d) := by
        simp [List.append_assoc]
    _ ~ a ++ ((c ++ b) ++ d) :=
        List.Perm.append_left a (List.perm_append_comm.append_right d)
    _ = (a ++ c) ++ (b ++ d) := by simp [List.append_assoc]

theorem loopL1_spec (J L j1 : Nat) (zs : List Path) :
    ∀ (l1s : List Nat) (n : Nat), SubAt zs (interL1 J L j1 l1s) (n + 1) →
      (loopL1 J L j1 l1s n).1 = n + (interL1 J L j1 l1s).length ∧
      ((loopL1 J L j1 l1s n).2.1).map (fun k => zs.getD k Path.order0) =
        l1s.map (fun l1 => Path.order1 j1 l1) ∧
      ((loopL1 J L j1 l1s n).2.2).map (fun k => zs.getD k Path.order0) =
        blockO2 J L j1 l1s ∧
      ((loopL1 J L j1 l1s n).2.1 ++ (loopL1 J L j1 l1s n).2.2).Perm
        (List.range' (n + 1) (interL1 J L j1 l1s).length) := by
  intro l1s
  induction l1s with
  | nil => intro n _; simp [loopL1, interL1, blockO2]
  | cons x l1s ih =>
      intro n h
      have hlen2 :
          (interJ2 L j1 x (List.range' (j1 + 1) (J - (j1 + 1)))).length =
            (J - (j1 + 1)) * L := by
        rw [interJ2_length, List.length_range']
      rw [interL1_cons] at h
      obtain ⟨hhead, hrest⟩ := subAt_append h
      obtain ⟨h1, h2⟩ := subAt_cons hhead
      rw [show n + 1 +
            (Path.order1 j1 x ::
              interJ2 L j1 x (List.range' (j1 + 1) (J - (j1 + 1)))).length =
          n + 1 + (J - (j1 + 1)) * L + 1 by
        simp only [List.length_cons, hlen2]; omega] at hrest
      obtain ⟨ihc, ih1, ih2, ihp⟩ :=
        ih (n + 1 + (J - (j1 + 1)) * L) hrest
      have hlen :
          (interL1 J L j1 (x :: l1s)).length =
            (J - (j1 + 1)) * L + (interL1 J L j1 l1s).length + 1 := by
        rw [interL1_cons]
        simp only [List.length_append, List.length_cons, hlen2]
        omega
      refine ⟨?_, ?_, ?_, ?_⟩
      · rw [loopL1_cons, ihc, hlen]
        omega
      · rw [loopL1_cons]
        simp only [List.map_cons, ih1, h1]
      · rw [loopL1_cons]
        simp only [List.map_append, ih2, blockO2_cons]
        rw [← hlen2, map_getD_range' _ (n + 1 + 1) h2]
      · rw [loopL1_cons, hlen]
        simp only []
        rw [show (J - (j1 + 1)) * L + (interL1 J L j1 l1s).length + 1 =
            ((J - (j1 + 1)) * L + (interL1 J L j1 l1s).length) + 1 by omega,
          List.range'_succ, List.cons_append]
        refine List.Perm.cons _ ?_
        rw [show n + 1 + (J - (j1 + 1)) * L + 1 =
            n + 1 + 1 + (J - (j1 + 1)) * L by omega] at ihp
        calc (loopL1 J L j1 l1s (n + 1 + (J - (j1 + 1)) * L)).2.1 ++
              (List.range' (n + 1 + 1) ((J - (j1 + 1)) * L) ++
                (loopL1 J L j1 l1s (n + 1 + (J - (j1 + 1)) * L)).2.2)
            = ((loopL1 J L j1 l1s (n + 1 + (J - (j1 + 1)) * L)).2.1 ++
                List.range' (n + 1 + 1) ((J - (j1 + 1)) * L)) ++
                (loopL1 J L j1 l1s (n + 1 + (J - (j1 + 1)) * L)).2.2 := by
              rw [List.append_assoc]
          _ ~ (List.range' (n + 1 + 1) ((J - (j1 + 1)) * L) ++
                (loopL1 J L j1 l1s (n + 1 + (J - (j1 + 1)) * L)).2.1) ++
                (loopL1 J L j1 l1s (n + 1 + (J - (j1 + 1)) * L)).2.2 :=
              List.perm_append_comm.append_right _
          _ = List.range' (n + 1 + 1) ((J - (j1 + 1)) * L) ++
                ((loopL1 J L j1 l1s (n + 1 + (J - (j1 + 1)) * L)).2.1 ++
                  (loopL1 J L j1 l1s (n + 1 + (J - (j1 + 1)) * L)).2.2) := by
              rw [List.append_assoc]
          _ ~ List.range' (n + 1 + 1) ((J - (j1 + 1)) * L) ++
                List.range' (n + 1 + 1 + (J - (j1 + 1)) * L)
                  (interL1 J L j1 l1s).length :=
              List.Perm.append_left _ ihp
          _ = List.range' (n + 1 + 1)
                ((J - (j1 + 1)) * L + (interL1 J L j1 l1s).length) := by
              rw [Nat.add_comm ((J - (j1 + 1)) * L)
                (interL1 J L j1 l1s).length]
              exact List.range'_append_1 _ _ _

theorem loopJ1_spec (J L : Nat) (zs : List Path) :
    ∀ (j1s : List Nat) (n : Nat), SubAt zs (interJ1 J L j1s) (n + 1) →
      (loopJ1 J L j1s n).1 = n + (interJ1 J L j1s).length ∧
      ((loopJ1 J L j1s n).2.1).map (fun k => zs.getD k Path.order0) =
        j1s.flatMap (fun j1 => (List.range L).map fun l1 => Path.order1 j1 l1) ∧
      ((loopJ1 J L j1s n).2.2).map (fun k => zs.getD k Path.order0) =
        j1s.flatMap (fun j1 => blockO2 J L j1 (List.range L)) ∧
      ((loopJ1 J L j1s n).2.1 ++ (loopJ1 J L j1s n).2.2).Perm
        (List.range' (n + 1) (interJ1 J L j1s).length) := by
  intro j1s
  induction j1s with
  | nil => intro n _; simp [loopJ1, interJ1]
  | cons x j1s ih =>
      intro n h
      rw [interJ1_cons] at h
      obtain ⟨ha, hb⟩ := subAt_append h
      obtain ⟨ac, a1, a2, ap⟩ := loopL1_spec J L x zs (List.range L) n ha
      rw [show n + 1 + (interL1 J L x (List.range L)).length =
          n + (interL1 J L x (List.range L)).length + 1 by omega] at hb
      obtain ⟨bc, b1, b2, bp⟩ :=
        ih (n + (interL1 J L x (List.range L)).length) hb
      have hlen : (interJ1 J L (x :: j1s)).length =
          (interL1 J L x (List.range L)).length +
            (interJ1 J L j1s).length := by
        rw [interJ1_cons, List.length_append]
      have hstep : loopJ1 J L (x :: j1s) n =
          ((loopJ1 J L j1s (loopL1 J L x (List.range L) n).1).1,
           (loopL1 J L x (List.range L) n).2.1 ++
             (loopJ1 J L j1s (loopL1 J L x (List.range L) n).1).2.1,
           (loopL1 J L x (List.range L) n).2.2 ++
             (loopJ1 J L j1s (loopL1 J L x (List.range L) n).1).2.2) := by
        simp [loopJ1]
      refine ⟨?_, ?_, ?_, ?_⟩
      · rw [hstep]
        simp only [ac] at bc ⊢
        rw [bc, hlen]
        omega
      · rw [hstep]
        simp only [List.map_append, a1, List.flatMap_cons]
        rw [ac, b1]
      · rw [hstep]
        simp only [List.map_append, a2, List.flatMap_cons]
        rw [ac, b2]
      · rw [hstep, hlen]
        simp only []
        rw [ac]
        calc ((loopL1 J L x (List.range L) n).2.1 ++
                (loopJ1 J L j1s
                  (n + (interL1 J L x (List.range L)).length)).2.1) ++
              ((loopL1 J L x (List.range L) n).2.2 ++
                (loopJ1 J L j1s
                  (n + (interL1 J L x (List.range L)).length)).2.2)
            ~ ((loopL1 J L x (List.range L) n).2.1 ++
                (loopL1 J L x (List.range L) n).2.2) ++
              ((loopJ1 J L j1s
                  (n + (interL1 J L x (List.range L)).length)).2.1 ++
                (loopJ1 J L j1s
                  (n + (interL1 J L x (List.range L)).length)).2.2) :=
              perm_append_swap _ _ _ _
          _ ~ List.range' (n + 1) (interL1 J L x (List.range L)).length ++
                List.range' (n + (interL1 J L x (List.range L)).length + 1)
                  (interJ1 J L j1s).length :=
              List.Perm.append ap bp
          _ = List.range' (n + 1) ((interL1 J L x (List.range L)).length +
                (interJ1 J L j1s).length) := by
              rw [show n + (interL1 J L x (List.range L)).length + 1 =
                  n + 1 + (interL1 J L x (List.range L)).length by omega,
                Nat.add_comm (interL1 J L x (List.range L)).length
                  (interJ1 J L j1s).length]
              exact List.range'_append_1 _ _ _

theorem subAt_interleaved (J L : Nat) :
    SubAt (interleaved J L) (interJ1 J L (List.range J)) 1 := by
  intro j hj
  rw [show 1 + j = j + 1 by omega]
  rfl

/-! ### Counting the channels -/

theorem flatMap_const_length {α : Type} (l : List α) (f : α → List Path)
    (c : Nat) (h : ∀ a ∈ l, (f a).length = c) :
    (l.flatMap f).length = l.length * c := by
  induction l with
  | nil => simp
  | cons x l ih =>
      simp only [List.flatMap_cons, List.length_append, List.length_cons]
      rw [h x (by simp), ih fun a ha => h a (by simp [ha]), Nat.succ_mul]
      omega

theorem sum_map_mul_const (l : List Nat) (c : Nat) (f : Nat → Nat) :
    (l.map fun x => c * f x).sum = c * (l.map f).sum := by
  induction l with
  | nil => simp
  | cons x l ih => simp [ih, Nat.mul_add]

theorem sum_map_reflect (n : Nat) :
    ((List.range n).map fun j => n - 1 - j).sum = (List.range n).sum := by
  have h1 := List.reverse_range' 0 n
  rw [← List.range_eq_range'] at h1
  have h2 : ((List.range n).reverse).sum = (List.range n).sum :=
    List.sum_reverse _
  rw [h1] at h2
  simpa using h2

theorem sum_range_list_two (n : Nat) :
    (List.range n).sum * 2 = n * (n - 1) := by
  induction n with
  | zero => simp
  | succ n ih =>
      rw [List.range_succ, List.sum_append]
      simp only [List.sum_cons, List.sum_nil]
      cases n with
      | zero => simp
      | succ m =>
          rw [Nat.add_mul, ih]
          simp only [Nat.succ_sub_one]
          ring

theorem order1Paths_length (J L : Nat) :
    (order1Paths J L).length = J * L := by
  rw [order1Paths, flatMap_const_length _ _ L fun a _ => by simp,
    List.length_range]

theorem blockO2_length (J L j1 : Nat) :
    (blockO2 J L j1 (List.range L)).length = L * ((J - (j1 + 1)) * L) := by
  rw [blockO2, flatMap_const_length _ _ ((J - (j1 + 1)) * L) fun a _ => by
      rw [interJ2_length, List.length_range'],
    List.length_range]

theorem order2Paths_length_two (J L : Nat) :
    (order2Paths J L).length * 2 = L ^ 2 * (J * (J - 1)) := by
  have h0 : (order2Paths J L).length =
      ((List.range J).map fun j1 => L * ((J - (j1 + 1)) * L)).sum := by
    rw [order2Paths, List.length_flatMap]
    congr 1
    refine List.map_congr_left fun a _ => ?_
    simpa using blockO2_length J L a
  have h1 : ((List.range J).map fun j1 => L * ((J - (j1 + 1)) * L)).sum =
      ((List.range J).map fun j1 => L ^ 2 * (J - 1 - j1)).sum := by
    congr 1
    refine List.map_congr_left fun a _ => ?_
    rw [show J - (a + 1) = J - 1 - a by omega]
    ring
  rw [h0, h1, sum_map_mul_const, sum_map_reflect, Nat.mul_assoc,
    sum_range_list_two]

theorem order2Paths_length (J L : Nat) :
    (order2Paths J L).length = L ^ 2 * (J * (J - 1)) / 2 := by
  have h := order2Paths_length_two J L
  omega

/-! ### Claim theorems on the coefficient ordering and counts -/

/-- C1: for every configuration `(J, L)` the grouped coefficient stack is
ordered as order 0 first, then all order-1 channels by increasing `j1` then
`theta1`, then all order-2 channels by increasing `j1`, `theta1`, `j2 > j1`,
`theta2`; and applying the interleaved-to-grouped index reordering computed by
`reorder_coefficients_from_interleaved` to the reference interleaved stack
reproduces this grouped stack element for element. -/
theorem reorder_reproduces_grouped (J L : Nat) :
    ((reorder_coefficients_from_interleaved J L).1 ++
      (reorder_coefficients_from_interleaved J L).2.1 ++
      (reorder_coefficients_from_interleaved J L).2.2).map
        (fun k => (interleaved J L).getD k Path.order0) = grouped J L := by
  obtain ⟨-, h1, h2, -⟩ :=
    loopJ1_spec J L (interleaved J L) (List.range J) 0 (subAt_interleaved J L)
  simp only [reorder_coefficients_from_interleaved, List.map_append]
  rw [h1, h2]
  simp [grouped, interleaved, order1Paths, order2Paths]

/-- C2: for every `(J, L)` the coefficient-stack length is `1 + J*L` at
`max_order = 1` and `1 + J*L + L^2*J*(J-1)/2` at `max_order = 2`; in
particular `J = 3, L = 8, max_order = 2` gives 217 channels. -/
theorem coefficient_stack_length (J L : Nat) :
    (scatteringPaths J L 1).length = 1 + J * L ∧
    (scatteringPaths J L 2).length = 1 + J * L + L ^ 2 * (J * (J - 1)) / 2 ∧
    (scatteringPaths 3 8 2).length = 217 := by
  refine ⟨?_, ?_, ?_⟩
  · have h : scatteringPaths J L 1 =
        Path.order0 :: (order1Paths J L ++ []) := by
      simp [scatteringPaths]
    rw [h]
    simp only [List.length_cons, List.length_append, List.length_nil,
      order1Paths_length]
    omega
  · have h : scatteringPaths J L 2 =
        Path.order0 :: (order1Paths J L ++ order2Paths J L) := by
      simp [scatteringPaths]
    rw [h]
    simp only [List.length_cons, List.length_append, order1Paths_length,
      order2Paths_length]
    omega
  · have h : scatteringPaths 3 8 2 =
        Path.order0 :: (order1Paths 3 8 ++ order2Paths 3 8) := by
      simp [scatteringPaths]
    rw [h]
    simp only [List.length_cons, List.length_append, order1Paths_length,
      order2Paths_length]
    norm_num

/-- C10: for every `J ≥ 1` and `L ≥ 1`, the index lists computed by
`reorder_coefficients_from_interleaved` have lengths `1`, `J*L` and
`L^2*J*(J-1)/2`, the order-0 list is `[0]`, and their concatenation is a
permutation of all channel indices `0, ..., 1 + J*L + L^2*J*(J-1)/2 - 1`. -/
theorem reorder_index_lists_partition (J L : Nat) (hJ : 1 ≤ J) (hL : 1 ≤ L) :
    (reorder_coefficients_from_interleaved J L).1 = [0] ∧
    (reorder_coefficients_from_interleaved J L).2.1.length = J * L ∧
    (reorder_coefficients_from_interleaved J L).2.2.length =
      L ^ 2 * (J * (J - 1)) / 2 ∧
    ((reorder_coefficients_from_interleaved J L).1 ++
      (reorder_coefficients_from_interleaved J L).2.1 ++
      (reorder_coefficients_from_interleaved J L).2.2).Perm
      (List.range (1 + J * L + L ^ 2 * (J * (J - 1)) / 2)) := by
  obtain ⟨-, h1, h2, hp⟩ :=
    loopJ1_spec J L (interleaved J L) (List.range J) 0 (subAt_interleaved J L)
  have e1 : (loopJ1 J L (List.range J) 0).2.1.length = J * L := by
    have h := congrArg List.length h1
    rw [List.length_map] at h
    rw [h]
    have : ((List.range J).flatMap fun j1 =>
        (List.range L).map fun l1 => Path.order1 j1 l1) = order1Paths J L :=
      rfl
    rw [this, order1Paths_length]
  have e2 : (loopJ1 J L (List.range J) 0).2.2.length =
      L ^ 2 * (J * (J - 1)) / 2 := by
    have h := congrArg List.length h2
    rw [List.length_map] at h
    rw [h]
    have : ((List.range J).flatMap fun j1 =>
        blockO2 J L j1 (List.range L)) = order2Paths J L := rfl
    rw [this, order2Paths_length]
  have hm : (interJ1 J L (List.range J)).length =
      J * L + L ^ 2 * (J * (J - 1)) / 2 := by
    have h := hp.length_eq
    rw [List.length_append, List.length_range', e1, e2] at h
    omega
  refine ⟨rfl, e1, e2, ?_⟩
  simp only [reorder_coefficients_from_interleaved, List.cons_append,
    List.nil_append, List.append_assoc]
  have hr : List.range (1 + J * L + L ^ 2 * (J * (J - 1)) / 2) =
      0 :: List.range' 1 (J * L + L ^ 2 * (J * (J - 1)) / 2) := by
    rw [List.range_eq_range',
      show 1 + J * L + L ^ 2 * (J * (J - 1)) / 2 =
        (J * L + L ^ 2 * (J * (J - 1)) / 2) + 1 by omega,
      List.range'_succ]
  rw [hr]
  refine List.Perm.cons _ ?_
  rw [← hm]
  simpa using hp

/-- Witness for C10 at the concrete configuration `J = 2, L = 1`. -/
theorem reorder_index_lists_partition_witness :
    1 ≤ 2 ∧ 1 ≤ 1 ∧
    ((reorder_coefficients_from_interleaved 2 1).1 = [0] ∧
     (reorder_coefficients_from_interleaved 2 1).2.1.length = 2 * 1 ∧
     (reorder_coefficients_from_interleaved 2 1).2.2.length =
       1 ^ 2 * (2 * (2 - 1)) / 2 ∧
     ((reorder_coefficients_from_interleaved 2 1).1 ++
       (reorder_coefficients_from_interleaved 2 1).2.1 ++
       (reorder_coefficients_from_interleaved 2 1).2.2).Perm
       (List.range (1 + 2 * 1 + 1 ^ 2 * (2 * (2 - 1)) / 2))) :=
  ⟨by decide, by decide,
    reorder_index_lists_partition 2 1 (by decide) (by decide)⟩

/-! ### Claim theorems on build-time validation and padding -/

/-- C4: building a scattering object with input dimensions `(M, N)` and
scale `J` signals a configuration error if and only if `2^J` exceeds one of
the dimensions; in particular `J = 10` with shape `(10, 10)` fails. -/
theorem build_error_iff (M N J : Nat) :
    (isOk (ScatteringBase2D_build M N J) = false ↔
      2 ^ J > M ∨ 2 ^ J > N) ∧
    isOk (ScatteringBase2D_build 10 10 10) = false := by
  constructor
  · by_cases h : 2 ^ J > M ∨ 2 ^ J > N
    · rw [ScatteringBase2D_build.eq_def, if_pos h]
      simp only [isOk]
      simpa using h
    · rw [ScatteringBase2D_build.eq_def, if_neg h]
      simp only [isOk]
      simpa using h
  · decide

/-- C7 counterexample: the build accepts `M = N = 32` with `J = 5` although
`min(M, N) = 2^5`, refuting the claim that a configuration with
`min(M, N) = 2^J` is rejected at build time. -/
theorem build_accepts_min_eq_two_pow :
    isOk (ScatteringBase2D_build 32 32 5) = true ∧ min 32 32 = 2 ^ 5 := by
  decide

/-- C7 (amended): a configuration is accepted at build time if and only if
the smallest input spatial dimension is at least `2^J` (equality is
accepted); configurations with `min(M, N) < 2^J` are rejected. -/
theorem build_accepts_iff (M N J : Nat) :
    isOk (ScatteringBase2D_build M N J) = true ↔ 2 ^ J ≤ min M N := by
  by_cases h : 2 ^ J > M ∨ 2 ^ J > N
  · rw [ScatteringBase2D_build.eq_def, if_pos h]
    simp only [isOk]
    simp only [Bool.false_eq_true, false_iff]
    omega
  · rw [ScatteringBase2D_build.eq_def, if_neg h]
    simp only [isOk]
    simp only [true_iff]
    omega

/-- C5: the pad amounts computed by `ScatteringBase2D.build` are
`pad_before = (padded - original) / 2` and
`pad_after = (padded - original + 1) / 2`; they sum to the total pad amount,
an even total is split equally, and an odd total puts the extra unit on the
trailing side. -/
theorem pad_amounts_split (orig padded : Nat) :
    (pad_amounts orig padded).1 = (padded - orig) / 2 ∧
    (pad_amounts orig padded).2 = (padded - orig + 1) / 2 ∧
    (pad_amounts orig padded).1 + (pad_amounts orig padded).2 =
      padded - orig ∧
    ((pad_amounts orig padded).2 - (pad_amounts orig padded).1 = 0 ∨
     (pad_amounts orig padded).2 - (pad_amounts orig padded).1 = 1) ∧
    (pad_amounts orig padded).2 - (pad_amounts orig padded).1 =
      (padded - orig) % 2 := by
  dsimp only [pad_amounts]
  omega

/-- C8: the filter-bank configuration check signals a configuration error
exactly on the invalid combinations, in particular whenever `J ≤ 0` or
`L ≤ 0`. -/
theorem filter_bank_invalid_iff (J L : Int) :
    isOk (filter_bank_check J L) = false ↔ J ≤ 0 ∨ L ≤ 0 := by
  by_cases h : J ≤ 0 ∨ L ≤ 0
  · rw [filter_bank_check.eq_def, if_pos h]
    simp only [isOk]
    simpa using h
  · rw [filter_bank_check.eq_def, if_neg h]
    simp only [isOk]
    simpa using h

/-- One axis of the pad/unpad round trip: cropping the reflect-padded signal
back to the original extent recovers the signal. -/
theorem unpad1d_pad1d {α : Type} (xs : List α) (pb pa : Nat)
    (h : pb < xs.length) :
    unpad1d pb xs.length (pad1d pb pa xs) = xs := by
  have hlen : (((xs.drop 1).take pb).reverse).length = pb := by
    simp only [List.length_reverse, List.length_take, List.length_drop]
    omega
  rw [unpad1d, pad1d, List.append_assoc, List.drop_left' hlen,
    List.take_left]

/-- C9: applying the padding policy's `pad` and then `unpad` restores the
original spatial extent of the signal, for every valid signal and pad
amounts. -/
theorem unpad_pad_id {α : Type} (x : List (List α))
    (M N pbM paM pbN paN : Nat) (hM : x.length = M)
    (hrow : ∀ r ∈ x, r.length = N) (h1 : pbM < M) (h2 : pbN < N) :
    unpad2d pbM M pbN N (pad2d pbM paM pbN paN x) = x := by
  rw [pad2d, unpad2d]
  have hys : unpad1d pbM M (pad1d pbM paM (x.map (pad1d pbN paN))) =
      x.map (pad1d pbN paN) := by
    rw [show M = (x.map (pad1d pbN paN)).length from by simp [hM]]
    exact unpad1d_pad1d _ _ _ (by simp only [List.length_map]; omega)
  rw [hys, List.map_map]
  have hid : ∀ r ∈ x, (unpad1d pbN N ∘ pad1d pbN paN) r = r := by
    intro r hr
    have hrN := hrow r hr
    simp only [Function.comp]
    rw [show N = r.length from hrN.symm]
    exact unpad1d_pad1d _ _ _ (by omega)
  rw [List.map_congr_left hid]
  simp

/-- Witness for C9 at a concrete 2 x 2 signal with pads (1, 1, 1, 1). -/
theorem unpad_pad_id_witness :
    (([[1, 2], [3, 4]] : List (List Nat)).length = 2 ∧
     (∀ r ∈ ([[1, 2], [3, 4]] : List (List Nat)), r.length = 2) ∧
     1 < 2) ∧
    unpad2d 1 2 1 2 (pad2d 1 1 1 1 [[1, 2], [3, 4]]) = [[1, 2], [3, 4]] :=
  ⟨⟨by decide, by decide, by decide⟩,
    unpad_pad_id [[1, 2], [3, 4]] 2 2 1 1 1 1 (by decide) (by decide)
      (by decide) (by decide)⟩

/-! ### Claim theorems on the forward call -/

/-- C3: the forward call on an input with any leading batch dimensions and
matching spatial size succeeds and returns the batch dimensions unchanged,
one extra channel axis of the coefficient-stack length, and trailing
spatial dimensions `(M // 2^J, N // 2^J)` (floor division, so also when
`2^J` does not divide `M` or `N`). -/
theorem forward_shape_batch_agnostic (J L maxOrder M N : Nat)
    (batch : List Nat) :
    scatteringOutputShape J L maxOrder M N (batch ++ [M, N]) =
      Except.ok (batch ++
        [(scatteringPaths J L maxOrder).length, M / 2 ^ J, N / 2 ^ J]) := by
  have hlen : (batch ++ [M, N]).length = batch.length + 2 := by simp
  simp only [scatteringOutputShape, hlen,
    show batch.length + 2 - 2 = batch.length from by omega,
    List.drop_left, List.take_left]
  rw [if_neg (by omega), if_neg (by simp)]

/-- C6: the forward call validates its input eagerly: rank below two is
rejected with the rank message in both padding modes; a spatial-size
mismatch is rejected with the unpadded-size message when `pre_pad` is unset
and with a distinct padded-size message when `pre_pad` is set. -/
theorem forward_validation (M N Mp Np : Nat) (shape : List Nat) :
    (shape.length < 2 → ∀ pp : Bool, forwardValidate M N Mp Np pp shape =
      Except.error "Input tensor must have at least two dimensions.") ∧
    (2 ≤ shape.length → shape.drop (shape.length - 2) ≠ [M, N] →
      forwardValidate M N Mp Np false shape =
        Except.error "NumPy array must be of spatial size (M, N).") ∧
    (2 ≤ shape.length → shape.drop (shape.length - 2) ≠ [Mp, Np] →
      forwardValidate M N Mp Np true shape =
        Except.error
          "Padded array must be of spatial size (M_padded, N_padded).") ∧
    ("NumPy array must be of spatial size (M, N)." ≠
      "Padded array must be of spatial size (M_padded, N_padded).") := by
  refine ⟨?_, ?_, ?_, ?_⟩
  · intro h pp
    rw [forwardValidate.eq_def, if_pos h]
  · intro hr hs
    rw [forwardValidate.eq_def, if_neg (by omega)]
    simp only [Bool.false_eq_true, if_false]
    rw [if_pos hs]
  · intro hr hs
    rw [forwardValidate.eq_def, if_neg (by omega)]
    simp only [if_true]
    rw [if_pos hs]
  · decide

/-- Witness for C6 at `M = N = 32`, padded size 48, inputs `[5]` (rank 1)
and `[31, 31]` (wrong spatial size). -/
theorem forward_validation_witness :
    (([5] : List Nat).length < 2 ∧
     forwardValidate 32 32 48 48 false [5] =
       Except.error "Input tensor must have at least two dimensions.") ∧
    (2 ≤ ([31, 31] : List Nat).length ∧
     ([31, 31] : List Nat).drop (([31, 31] : List Nat).length - 2) ≠
       [32, 32] ∧
     forwardValidate 32 32 48 48 false [31, 31] =
       Except.error "NumPy array must be of spatial size (M, N).") ∧
    (([31, 31] : List Nat).drop (([31, 31] : List Nat).length - 2) ≠
       [48, 48] ∧
     forwardValidate 32 32 48 48 true [31, 31] =
       Except.error
         "Padded array must be of spatial size (M_padded, N_padded).") :=
  ⟨⟨by decide, (forward_validation 32 32 48 48 [5]).1 (by decide) false⟩,
   ⟨by decide, by decide,
     (forward_validation 32 32 48 48 [31, 31]).2.1 (by decide) (by decide)⟩,
   ⟨by decide,
     (forward_validation 32 32 48 48 [31, 31]).2.2.1 (by decide)
       (by decide)⟩⟩

end Kymatio
